import Mathlib

/-!
# Verification of `toml_config_manager`

A shallow embedding of the configuration resolution engine of the
`toml-config-manager` repository (module `config/toml_config_manager.py`),
together with proofs of the specified properties.

The engine's implementation module is not part of the provided sources
(only its unit tests and a downstream example are), so the definitions
below are modelled from the specification, cross-checked against the
behaviour asserted by the unit tests in
`src/tests/unit/config/test_toml_config_manager.py`.

Python dictionaries are modelled as association lists ordered by
insertion, with first-occurrence lookup and in-place replacement on
re-insertion, which matches `dict` semantics whenever keys are unique
(the ConfigTree invariant).
-/

set_option autoImplicit false

namespace TomlConfigManager

/-- Modelled from the spec: a configuration tree value — one of
scalar (string, integer, boolean), nested tree, or sequence of values.
(The float scalar kind is omitted: no specified property depends on it.) -/
inductive Value where
  | vStr : String → Value
  | vInt : Int → Value
  | vBool : Bool → Value
  | vTree : List (String × Value) → Value
  | vList : List Value → Value
deriving Repr

/-- A ConfigTree: a mapping from string keys to values, insertion ordered. -/
abbrev ConfigTree := List (String × Value)

/-- First-occurrence lookup in an association list (Python `d.get(k)`). -/
def lookupT (t : ConfigTree) (k : String) : Option Value :=
  match t with
  | [] => none
  | (k', v) :: rest => if k' = k then some v else lookupT rest k

/-- Insertion in an association list (Python `d[k] = v`): replaces the
first occurrence of the key in place, otherwise appends at the end. -/
def insertT (t : ConfigTree) (k : String) (v : Value) : ConfigTree :=
  match t with
  | [] => [(k, v)]
  | (k', v') :: rest => if k' = k then (k, v) :: rest else (k', v') :: insertT rest k v

/-- The keys of a tree, in order. -/
def keysT (t : ConfigTree) : List String := t.map (·.1)

/-- Is this value a nested tree (`isinstance(value, dict)` in Python)? -/
def isTreeV : Value → Bool
  | Value.vTree _ => true
  | _ => false

/-- The nested tree held by a value (defaulting to empty for non-trees;
only ever used under an `isTreeV` guard). -/
def getTreeV : Value → ConfigTree
  | Value.vTree t => t
  | _ => []

/-- Is this optional value a nested tree
(`key in result and isinstance(result[key], dict)` in Python)? -/
def isTreeO : Option Value → Bool
  | some (Value.vTree _) => true
  | _ => false

/-- The nested tree held by an optional value (defaulting to empty;
only ever used under an `isTreeO` guard). -/
def getTreeO : Option Value → ConfigTree
  | some (Value.vTree t) => t
  | _ => []

/-- Modelled from the spec: `merge_dicts(dict1, dict2)` (DeepMerger.merge,
spec §4.3).  Produces a new tree containing every key from both inputs; a
key present in both with two tree values is merged recursively, otherwise
the overlay's (`dict2`'s) value wins; keys present in only one input pass
through unchanged.  Embeds the loop `for key, value in dict2.items()`
acting on a copy of `dict1`. -/
def merge_dicts (dict1 dict2 : ConfigTree) : ConfigTree :=
  match dict2 with
  | [] => dict1
  | (key, value) :: rest =>
    merge_dicts
      (if _h : isTreeO (lookupT dict1 key) && isTreeV value then
        insertT dict1 key
          (Value.vTree (merge_dicts (getTreeO (lookupT dict1 key)) (getTreeV value)))
      else insertT dict1 key value) rest
termination_by sizeOf dict2
decreasing_by
  · simp only [Bool.and_eq_true] at _h
    have hv : ∀ w : Value, isTreeV w = true → w = Value.vTree (getTreeV w) := by
      intro w hw
      cases w <;> simp [isTreeV, getTreeV] at hw ⊢
    rw [hv _ _h.2]
    simp only [Prod.mk.sizeOf_spec, List.cons.sizeOf_spec, Value.vTree.sizeOf_spec, getTreeV]
    omega
  · simp

/-- The one-entry step of the merge loop. -/
def mergeStep (d1 : ConfigTree) (key : String) (value : Value) : ConfigTree :=
  if isTreeO (lookupT d1 key) && isTreeV value then
    insertT d1 key
      (Value.vTree (merge_dicts (getTreeO (lookupT d1 key)) (getTreeV value)))
  else insertT d1 key value

/-! ## Environments, error kinds, filesystem model -/

/-- The error taxonomy of spec §7 (plus the soft-missing-file signal that
Python surfaces as `FileNotFoundError` for an absent document and the
caller of §4.4 catches). -/
inductive Err where
  | invalidEnvironment
  | directoryNotFound
  | fileNotFound
  | malformedDocument
  | malformedManifest
  | fieldNotFound
  | nonScalarField
deriving DecidableEq, Repr

/-- Modelled from the spec: the closed `ValidEnvs` set of environment tags
(spec §3 "Environment", members per the repository's documented set). -/
inductive ValidEnvs where
  | LOCAL
  | DEV
  | STAGING
  | PROD
deriving DecidableEq, Repr

/-- The string value of an environment tag (`ValidEnvs` is a `StrEnum`). -/
def ValidEnvs.value : ValidEnvs → String
  | .LOCAL => "local"
  | .DEV => "dev"
  | .STAGING => "staging"
  | .PROD => "prod"

/-- Generic first-occurrence association-list lookup (Python `d.get(k)`
for the non-ConfigTree dictionaries of the engine). -/
def alookup {κ α : Type} [DecidableEq κ] (l : List (κ × α)) (k : κ) : Option α :=
  match l with
  | [] => none
  | (k', a) :: rest => if k' = k then some a else alookup rest k

/-- Generic association-list insertion (Python `d[k] = a`): replaces the
first occurrence in place, otherwise appends. -/
def ainsert {κ α : Type} [DecidableEq κ] (l : List (κ × α)) (k : κ) (a : α) :
    List (κ × α) :=
  match l with
  | [] => [(k, a)]
  | (k', a') :: rest => if k' = k then (k, a) :: rest else (k', a') :: ainsert rest k a

/-- The content of a single document in a directory: a tree when the TOML
text is valid, `malformed` otherwise (the trusted parser raises). -/
inductive FileContent where
  | parsed : ConfigTree → FileContent
  | malformed : FileContent

/-- The files of one directory, by document name. -/
abbrev DirFiles := List (String × FileContent)

/-- The filesystem: directories (by path) that exist, with their files. -/
abbrev FileSystem := List (String × DirFiles)

/-- The environment → directory map (spec: EnvironmentDirectoryMap). -/
abbrev DirPaths := List (ValidEnvs × String)

/-- The fixed document names (Python `DirContents`). -/
def DirContents.CONFIG_NAME : String := "config.toml"

/-- The optional secrets document name. -/
def DirContents.SECRETS_NAME : String := ".secrets.toml"

/-- The export manifest document name. -/
def DirContents.EXPORT_NAME : String := "export.toml"

/-- Modelled from the spec: `read_config(env, config, dir_paths)`
(LayeredConfigReader.read, spec §4.2).  Resolves `dir_paths[env]`; fails
with DirectoryNotFound when the environment key is absent or the resolved
directory does not exist; reads and parses the named document, a missing
document being the distinct soft signal `fileNotFound` and a TOML parse
failure `malformedDocument`. -/
def read_config (env : ValidEnvs) (config : String) (dir_paths : DirPaths)
    (fs : FileSystem) : Except Err ConfigTree :=
  match alookup dir_paths env with
  | none => .error .directoryNotFound
  | some dir =>
    match alookup fs dir with
    | none => .error .directoryNotFound
    | some files =>
      match alookup files config with
      | none => .error .fileNotFound
      | some FileContent.malformed => .error .malformedDocument
      | some (FileContent.parsed t) => .ok t

/-- Modelled from the spec: `load_full_config(env, dir_paths)`
(ConfigResolver.resolve, spec §4.4).  Reads the mandatory base document
(failures fatal), treats a specifically-missing secrets document as an
empty tree, and returns the deep merge of base and secrets. -/
def load_full_config (env : ValidEnvs) (dir_paths : DirPaths)
    (fs : FileSystem) : Except Err ConfigTree :=
  match read_config env DirContents.CONFIG_NAME dir_paths fs with
  | .error e => .error e
  | .ok config =>
    match read_config env DirContents.SECRETS_NAME dir_paths fs with
    | .error Err.fileNotFound => .ok (merge_dicts config [])
    | .error e => .error e
    | .ok secrets => .ok (merge_dicts config secrets)

/-- Modelled from the spec: `validate_env(env)`
(EnvironmentIdentity.validate, spec §4.1): case-exact membership in the
closed environment set; absent or unknown candidates fail with
InvalidEnvironment. -/
def validate_env (env : Option String) : Except Err ValidEnvs :=
  match env with
  | none => .error .invalidEnvironment
  | some s =>
    if s = "local" then .ok .LOCAL
    else if s = "dev" then .ok .DEV
    else if s = "staging" then .ok .STAGING
    else if s = "prod" then .ok .PROD
    else .error .invalidEnvironment

/-! ## Export field extraction -/

/-- Splitting a character list on a separator character
(Python `str.split` with a one-character separator). -/
def splitChars (sep : Char) : List Char → List (List Char)
  | [] => [[]]
  | c :: rest =>
    if c = sep then [] :: splitChars sep rest
    else match splitChars sep rest with
      | [] => [[c]]
      | g :: gs => (c :: g) :: gs

/-- The dotted path's segments (Python `field.split(".")`). -/
def splitOnDot (field : String) : List String :=
  (splitChars '.' field.data).map String.mk

/-- Dotted-path descent (the `for key in field.split(".")` loop): one key
per segment; a segment absent at its level — or a descent into a
non-tree — fails with FieldNotFound. -/
def walkPath (v : Value) (segs : List String) : Except Err Value :=
  match v, segs with
  | v, [] => .ok v
  | Value.vTree t, k :: rest =>
    match lookupT t k with
    | none => .error .fieldNotFound
    | some v' => walkPath v' rest
  | _, _ :: _ => .error .fieldNotFound

/-- The canonical string form of a scalar (Python `str(value)`). -/
def strOfScalar : Value → Option String
  | Value.vStr s => some s
  | Value.vInt n => some (toString n)
  | Value.vBool b => some (if b then "True" else "False")
  | _ => none

/-- Modelled from the spec: `get_env_value_by_export_field(config, field)`
(ExportFieldExtractor.resolveField, spec §4.5).  Walks the tree along the
dotted path; FieldNotFound when a segment is absent, NonScalarField when
the final value is a tree or sequence; otherwise the scalar's string
form. -/
def get_env_value_by_export_field (config : ConfigTree) (field : String) :
    Except Err String :=
  match walkPath (Value.vTree config) (splitOnDot field) with
  | .error e => .error e
  | .ok v =>
    match strOfScalar v with
    | none => .error .nonScalarField
    | some s => .ok s

/-- The export-variable name of a dotted path: `.` → `_`, upper-cased
(Python `field.replace(".", "_").upper()`, fused into one pass over the
characters — upper-casing fixes `_`). -/
def exportNameOf (field : String) : String :=
  String.mk (field.data.map fun c => (if c = '.' then '_' else c).toUpper)

/-- The accumulator loop of `extract_export_fields_from_config`:
`result[env_name] = get_env_value_by_export_field(...)` per field. -/
def extractAux (config : ConfigTree) (fields : List String)
    (acc : List (String × String)) : Except Err (List (String × String)) :=
  match fields with
  | [] => .ok acc
  | f :: rest =>
    match get_env_value_by_export_field config f with
    | .error e => .error e
    | .ok s => extractAux config rest (ainsert acc (exportNameOf f) s)

/-- Modelled from the spec: `extract_export_fields_from_config(config,
export_fields)` (ExportFieldExtractor.extractAll, spec §4.5): order
preserved, later duplicates overwrite, the first failure aborts the whole
extraction. -/
def extract_export_fields_from_config (config : ConfigTree)
    (export_fields : List String) : Except Err (List (String × String)) :=
  extractAux config export_fields []

/-- Checks that every element of a TOML sequence is a string, returning
them in order. -/
def allStrings : List Value → Option (List String)
  | [] => some []
  | Value.vStr s :: rest => (allStrings rest).map (s :: ·)
  | _ :: _ => none

/-- The manifest-shape checks of `load_export_fields`: requires the
`export` table with a `fields` key holding a non-empty sequence of
strings; anything else is MalformedManifest. -/
def parse_export_fields (doc : ConfigTree) : Except Err (List String) :=
  match lookupT doc "export" with
  | some (Value.vTree sec) =>
    match lookupT sec "fields" with
    | some (Value.vList l) =>
      match allStrings l with
      | some [] => .error .malformedManifest
      | some fields => .ok fields
      | none => .error .malformedManifest
    | _ => .error .malformedManifest
  | _ => .error .malformedManifest

/-- Modelled from the spec: `load_export_fields(env, dir_paths)`
(ExportFieldExtractor.loadManifest, spec §4.5): reads the export manifest
document via `read_config` and validates its shape. -/
def load_export_fields (env : ValidEnvs) (dir_paths : DirPaths)
    (fs : FileSystem) : Except Err (List String) :=
  match read_config env DirContents.EXPORT_NAME dir_paths fs with
  | .error e => .error e
  | .ok doc => parse_export_fields doc

/-! ## Dotenv writing -/

/-- The lines of the generated dotenv artifact, in order (spec §4.6):
2-line disclaimer, blank, environment line, timestamp line, blank, then
one NAME=value line per exported entry. -/
def dotenvLines (env : ValidEnvs) (exported_fields : List (String × String))
    (generated_at : String) : List String :=
  ["# This .env file was automatically generated by toml_config_manager.",
   "# Do not edit directly.",
   "",
   "# Environment: " ++ env.value,
   "# Generated: " ++ generated_at,
   ""] ++ exported_fields.map (fun p => p.1 ++ "=" ++ p.2)

/-- The full text of the dotenv artifact: every line newline-terminated. -/
def dotenvContent (env : ValidEnvs) (exported_fields : List (String × String))
    (generated_at : String) : String :=
  String.join ((dotenvLines env exported_fields generated_at).map (· ++ "\n"))

/-- Modelled from the spec: `write_dotenv_file(env, exported_fields,
generated_at)` (DotenvWriter.write, spec §4.6).  Resolves the target
directory via the environment → directory map (fatal when absent, as in
§4.2) and produces the `.env.<environment>` artifact path plus its
content; `generated_at` is the injected ISO-8601 UTC timestamp (the
current instant is substituted by the caller when not supplied). -/
def write_dotenv_file (env : ValidEnvs)
    (exported_fields : List (String × String)) (dir_paths : DirPaths)
    (generated_at : String) : Except Err (String × String) :=
  match alookup dir_paths env with
  | none => .error .directoryNotFound
  | some dir =>
    .ok (dir ++ "/.env." ++ env.value,
      dotenvContent env exported_fields generated_at)

/-! ## Downstream settings layer (from `src/examples/read_config.py`) -/

/-- `PostgresSettings.override_host_from_env` from
`src/examples/read_config.py`: the `POSTGRES_HOST` process-environment
variable (modelled as an explicit `Option String` input) replaces the
configured host whenever it is set and truthy (non-empty). -/
def override_host_from_env (postgres_host_env : Option String) (v : String) :
    String :=
  match postgres_host_env with
  | some s => if s ≠ "" then s else v
  | none => v

/-! ## Heap model of the imperative merge

To state that `merge_dicts` mutates neither input and returns a fresh
tree, the Python object model is made explicit: dictionaries are
heap cells addressed by `Nat`, values refer to nested dictionaries by
address, and the merge is the imperative loop acting on this heap.  The
recursion is fuel-indexed because reference graphs in the model may be
cyclic. -/

/-- A runtime value: immutable scalars and sequences, or a reference to a
dictionary cell in the heap. -/
inductive HValue where
  | hStr : String → HValue
  | hInt : Int → HValue
  | hBool : Bool → HValue
  | hList : List HValue → HValue
  | hRef : Nat → HValue
deriving Repr

/-- The content of one dictionary object. -/
abbrev HDict := List (String × HValue)

/-- The heap: an allocation counter and the allocated cells (later
writes shadow earlier ones). -/
structure Heap where
  next : Nat
  cells : List (Nat × HDict)
deriving Repr

/-- Read a dictionary cell. -/
def Heap.get (h : Heap) (a : Nat) : Option HDict :=
  alookup h.cells a

/-- Allocate a fresh dictionary cell (`dict1.copy()` allocates). -/
def Heap.alloc (h : Heap) (d : HDict) : Heap × Nat :=
  (⟨h.next + 1, (h.next, d) :: h.cells⟩, h.next)

/-- Overwrite a dictionary cell in place (`result[key] = ...`). -/
def Heap.set (h : Heap) (a : Nat) (d : HDict) : Heap :=
  ⟨h.next, (a, d) :: h.cells⟩

/-- Is this dictionary entry a reference to a (nested) dictionary
(`key in result and isinstance(result[key], dict)`)? -/
def isRefD : Option HValue → Bool
  | some (HValue.hRef _) => true
  | _ => false

/-- The address held by a dictionary entry (only used under an `isRefD`
guard). -/
def getRefD : Option HValue → Nat
  | some (HValue.hRef a) => a
  | _ => 0

/-- Is this value a reference to a dictionary
(`isinstance(value, dict)`)? -/
def isRefV : HValue → Bool
  | HValue.hRef _ => true
  | _ => false

/-- The address held by a value (only used under an `isRefV` guard). -/
def getRefV : HValue → Nat
  | HValue.hRef a => a
  | _ => 0

/-- The loop `for key, value in dict2.items()` of `merge_dicts`, writing
into the result cell `res`; the recursive tree-tree merge is passed in as
`mergeFn`.  Faithful to the Python body: the result dictionary is re-read
at each step, the both-dicts test is `key in result and
isinstance(result[key], dict) and isinstance(value, dict)`, and every
other shape overwrites with the overlay's value. -/
def mergeLoopF (mergeFn : Heap → Nat → Nat → Option (Heap × Nat)) :
    Heap → Nat → List (String × HValue) → Option Heap
  | h, _, [] => some h
  | h, res, (key, value) :: rest =>
    match h.get res with
    | none => none
    | some resd =>
      if isRefD (alookup resd key) && isRefV value then
        match mergeFn h (getRefD (alookup resd key)) (getRefV value) with
        | none => none
        | some (h1, r) =>
          match h1.get res with
          | none => none
          | some resd' =>
            mergeLoopF mergeFn (h1.set res (ainsert resd' key (HValue.hRef r)))
              res rest
      else mergeLoopF mergeFn (h.set res (ainsert resd key value)) res rest

/-- The imperative `merge_dicts(dict1, dict2)` over the heap model:
copies `dict1` into a freshly allocated result cell, then runs the
overlay loop.  `none` only on fuel exhaustion or a dangling reference. -/
def mergeH : Nat → Heap → Nat → Nat → Option (Heap × Nat)
  | 0, _, _, _ => none
  | fuel + 1, h, r1, r2 =>
    match h.get r1, h.get r2 with
    | some d1, some d2 =>
      match mergeLoopF (mergeH fuel) (h.alloc d1).1 (h.alloc d1).2 d2 with
      | none => none
      | some h' => some (h', (h.alloc d1).2)
    | _, _ => none

/-- Preservation property of a merge function: the allocation counter
never decreases and no pre-existing cell changes. -/
def MergePreserves (mergeFn : Heap → Nat → Nat → Option (Heap × Nat)) : Prop :=
  ∀ h r1 r2 h' r, mergeFn h r1 r2 = some (h', r) →
    h.next ≤ h'.next ∧ ∀ a, a < h.next → h'.get a = h.get a

/-- Concrete base tree for the C1 witness. -/
def c1base : ConfigTree :=
  [("x", Value.vTree [("p", Value.vInt 1)]), ("s", Value.vInt 1),
   ("onlyA", Value.vStr "keep")]

/-- Concrete overlay tree for the C1 witness. -/
def c1overlay : ConfigTree :=
  [("x", Value.vTree [("q", Value.vInt 2)]), ("s", Value.vInt 2),
   ("onlyB", Value.vBool true)]

/-- Concrete heap for the C2 witness: cells 0 and 1 are the two input
dictionaries, each holding a nested dictionary (cells 2 and 3) under the
same key, so the recursive branch is exercised. -/
def c2heap : Heap :=
  ⟨4, [(0, [("n", HValue.hRef 2), ("s", HValue.hInt 1)]),
       (1, [("n", HValue.hRef 3), ("t", HValue.hStr "v")]),
       (2, [("p", HValue.hInt 1)]),
       (3, [("q", HValue.hInt 2)])]⟩

/-- The heap and result address produced by merging cells 0 and 1 of
`c2heap`. -/
def c2result : Heap × Nat := (mergeH 3 c2heap 0 1).getD (⟨0, []⟩, 0)

/-- Concrete tree for the C4 witness. -/
def c4config : ConfigTree :=
  [("db", Value.vTree [("USER", Value.vStr "admin"), ("PORT", Value.vInt 5432)])]

/-- Concrete base tree for the C5 witness. -/
def c5base : ConfigTree :=
  [("db", Value.vTree [("USER", Value.vStr "admin"), ("PORT", Value.vInt 5432)])]

/-- Concrete manifest document for the C7 witness. -/
def c7doc : ConfigTree :=
  [("export", Value.vTree
    [("fields", Value.vList [Value.vStr "postgres.USER", Value.vStr "postgres.PORT"])])]

/-- A tree on which two distinct dotted paths (`a.b` and `a_b`) derive the
same export name `A_B`. -/
def c6collide : ConfigTree :=
  [("a", Value.vTree [("b", Value.vInt 1)]), ("a_b", Value.vInt 2)]

/-! ## Theorems -/

@[simp]
theorem lookupT_insertT_self (t : ConfigTree) (k : String) (v : Value) :
    lookupT (insertT t k v) k = some v := by
  induction t with
  | nil => simp [insertT, lookupT]
  | cons hd tl ih =>
    obtain ⟨k', v'⟩ := hd
    by_cases h : k' = k
    · simp [insertT, lookupT, h]
    · simp [insertT, lookupT, h, ih]

theorem lookupT_insertT_ne (t : ConfigTree) (k k' : String) (v : Value)
    (h : k' ≠ k) : lookupT (insertT t k v) k' = lookupT t k' := by
  induction t with
  | nil => simp [insertT, lookupT, Ne.symm h]
  | cons hd tl ih =>
    obtain ⟨k0, v0⟩ := hd
    by_cases h0 : k0 = k
    · subst h0
      simp [insertT, lookupT, Ne.symm h]
    · simp [insertT, lookupT, h0, ih]

@[simp]
theorem keysT_cons (k : String) (v : Value) (t : ConfigTree) :
    keysT ((k, v) :: t) = k :: keysT t := rfl

theorem lookupT_eq_none_of_not_mem_keys (t : ConfigTree) (k : String)
    (h : k ∉ keysT t) : lookupT t k = none := by
  induction t with
  | nil => rfl
  | cons hd tl ih =>
    obtain ⟨k0, v0⟩ := hd
    rw [keysT_cons, List.mem_cons] at h
    push_neg at h
    simp [lookupT, Ne.symm h.1, ih h.2]

theorem merge_dicts_nil (d1 : ConfigTree) : merge_dicts d1 [] = d1 := by
  rw [merge_dicts]

theorem merge_dicts_cons (d1 : ConfigTree) (key : String) (value : Value)
    (rest : ConfigTree) :
    merge_dicts d1 ((key, value) :: rest) =
      merge_dicts (mergeStep d1 key value) rest := by
  rw [merge_dicts, mergeStep]
  congr 1

/-- Whatever branch the merge step takes, it is an insertion at the
processed key; lookups at other keys are unchanged. -/
theorem lookupT_mergeStep_ne (d1 : ConfigTree) (key : String) (value : Value)
    (k : String) (h : k ≠ key) :
    lookupT (mergeStep d1 key value) k = lookupT d1 k := by
  rw [mergeStep]
  split <;> rw [lookupT_insertT_ne _ _ _ _ h]

/-- When both sides hold trees at the processed key, the step inserts the
recursive merge. -/
theorem mergeStep_both_trees (d1 : ConfigTree) (key : String)
    (t1 t2 : ConfigTree) (h1 : lookupT d1 key = some (Value.vTree t1)) :
    mergeStep d1 key (Value.vTree t2) =
      insertT d1 key (Value.vTree (merge_dicts t1 t2)) := by
  rw [mergeStep, if_pos (by simp [h1, isTreeO, isTreeV])]
  simp [h1, getTreeO, getTreeV]

/-- When the two sides do not both hold trees at the processed key, the
step inserts the overlay value as-is. -/
theorem mergeStep_replace (d1 : ConfigTree) (key : String) (value : Value)
    (h : isTreeO (lookupT d1 key) = false ∨ isTreeV value = false) :
    mergeStep d1 key value = insertT d1 key value := by
  rw [mergeStep, if_neg]
  rcases h with h | h <;> simp [h]

/-- A key absent from the overlay keeps its base binding (and stays absent
when absent from both). -/
theorem lookupT_merge_of_not_mem_overlay (d1 d2 : ConfigTree) (k : String)
    (h : lookupT d2 k = none) :
    lookupT (merge_dicts d1 d2) k = lookupT d1 k := by
  induction d2 generalizing d1 with
  | nil => rw [merge_dicts_nil]
  | cons hd rest ih =>
    obtain ⟨k0, v0⟩ := hd
    rw [merge_dicts_cons]
    simp only [lookupT] at h
    by_cases hk : k0 = k
    · simp [hk] at h
    · rw [ih _ (by simpa [hk] using h), lookupT_mergeStep_ne _ _ _ _ (fun he => hk he.symm)]

/-- A key bound to trees in both inputs is bound to the recursive merge
in the result (overlay keys assumed unique, the ConfigTree invariant). -/
theorem lookupT_merge_both_trees (d1 d2 : ConfigTree) (k : String)
    (ta tb : ConfigTree)
    (hnd : (keysT d2).Nodup)
    (h1 : lookupT d1 k = some (Value.vTree ta))
    (h2 : lookupT d2 k = some (Value.vTree tb)) :
    lookupT (merge_dicts d1 d2) k = some (Value.vTree (merge_dicts ta tb)) := by
  induction d2 generalizing d1 with
  | nil => simp [lookupT] at h2
  | cons hd rest ih =>
    obtain ⟨k0, v0⟩ := hd
    rw [merge_dicts_cons]
    simp only [lookupT] at h2
    rw [keysT_cons, List.nodup_cons] at hnd
    by_cases hk : k0 = k
    · subst hk
      rw [if_pos rfl] at h2
      injection h2 with h2
      subst h2
      rw [lookupT_merge_of_not_mem_overlay _ _ _
        (lookupT_eq_none_of_not_mem_keys _ _ hnd.1)]
      rw [mergeStep_both_trees _ _ ta _ h1]
      rw [lookupT_insertT_self]
    · rw [if_neg hk] at h2
      exact ih _ hnd.2
        (by rw [lookupT_mergeStep_ne _ _ _ _ (fun he => hk he.symm)]; exact h1) h2

/-- A key present in both inputs where the two values are not both trees
takes the overlay's value (overlay keys assumed unique). -/
theorem lookupT_merge_overlay_wins (d1 d2 : ConfigTree) (k : String)
    (va vb : Value)
    (hnd : (keysT d2).Nodup)
    (h1 : lookupT d1 k = some va)
    (h2 : lookupT d2 k = some vb)
    (hnt : ∀ ta tb, ¬(va = Value.vTree ta ∧ vb = Value.vTree tb)) :
    lookupT (merge_dicts d1 d2) k = some vb := by
  induction d2 generalizing d1 with
  | nil => simp [lookupT] at h2
  | cons hd rest ih =>
    obtain ⟨k0, v0⟩ := hd
    rw [merge_dicts_cons]
    simp only [lookupT] at h2
    rw [keysT_cons, List.nodup_cons] at hnd
    by_cases hk : k0 = k
    · subst hk
      rw [if_pos rfl] at h2
      injection h2 with h2
      subst vb
      rw [lookupT_merge_of_not_mem_overlay _ _ _
        (lookupT_eq_none_of_not_mem_keys _ _ hnd.1)]
      have hrep : isTreeO (lookupT d1 k0) = false ∨ isTreeV v0 = false := by
        rcases va with s | n | b | ta | l <;> rcases v0 with s' | n' | b' | tb | l' <;>
          simp [h1, isTreeO, isTreeV]
        exact absurd ⟨rfl, rfl⟩ (hnt ta tb)
      rw [mergeStep_replace _ _ _ hrep, lookupT_insertT_self]
    · rw [if_neg hk] at h2
      exact ih _ hnd.2
        (by rw [lookupT_mergeStep_ne _ _ _ _ (fun he => hk he.symm)]; exact h1) h2

/-- A key present only in the overlay passes through unchanged (overlay
keys assumed unique). -/
theorem lookupT_merge_only_overlay (d1 d2 : ConfigTree) (k : String)
    (vb : Value)
    (hnd : (keysT d2).Nodup)
    (h1 : lookupT d1 k = none)
    (h2 : lookupT d2 k = some vb) :
    lookupT (merge_dicts d1 d2) k = some vb := by
  induction d2 generalizing d1 with
  | nil => simp [lookupT] at h2
  | cons hd rest ih =>
    obtain ⟨k0, v0⟩ := hd
    rw [merge_dicts_cons]
    simp only [lookupT] at h2
    rw [keysT_cons, List.nodup_cons] at hnd
    by_cases hk : k0 = k
    · subst hk
      rw [if_pos rfl] at h2
      injection h2 with h2
      subst vb
      rw [lookupT_merge_of_not_mem_overlay _ _ _
        (lookupT_eq_none_of_not_mem_keys _ _ hnd.1)]
      rw [mergeStep_replace _ _ _ (Or.inl (by simp [h1, isTreeO])),
        lookupT_insertT_self]
    · rw [if_neg hk] at h2
      have h1' : lookupT (mergeStep d1 k0 v0) k = none := by
        rw [lookupT_mergeStep_ne _ _ _ _ (fun he => hk he.symm)]; exact h1
      exact ih _ hnd.2 h1' h2

@[simp]
theorem alookup_ainsert_self {κ α : Type} [DecidableEq κ]
    (l : List (κ × α)) (k : κ) (a : α) : alookup (ainsert l k a) k = some a := by
  induction l with
  | nil => simp [ainsert, alookup]
  | cons hd tl ih =>
    obtain ⟨k', a'⟩ := hd
    by_cases h : k' = k
    · simp [ainsert, alookup, h]
    · simp [ainsert, alookup, h, ih]

theorem alookup_ainsert_ne {κ α : Type} [DecidableEq κ]
    (l : List (κ × α)) (k k' : κ) (a : α) (h : k' ≠ k) :
    alookup (ainsert l k a) k' = alookup l k' := by
  induction l with
  | nil => simp [ainsert, alookup, Ne.symm h]
  | cons hd tl ih =>
    obtain ⟨k0, a0⟩ := hd
    by_cases h0 : k0 = k
    · subst h0
      simp [ainsert, alookup, Ne.symm h]
    · simp [ainsert, alookup, h0, ih]

theorem Heap.get_set_self (h : Heap) (a : Nat) (d : HDict) :
    (h.set a d).get a = some d := by
  simp [Heap.get, Heap.set, alookup]

theorem Heap.get_set_ne (h : Heap) (a b : Nat) (d : HDict) (hne : b ≠ a) :
    (h.set a d).get b = h.get b := by
  simp [Heap.get, Heap.set, alookup, Ne.symm hne]

theorem Heap.next_set (h : Heap) (a : Nat) (d : HDict) :
    (h.set a d).next = h.next := rfl

theorem Heap.get_alloc_lt (h : Heap) (d : HDict) (b : Nat) (hb : b < h.next) :
    (h.alloc d).1.get b = h.get b := by
  simp [Heap.get, Heap.alloc, alookup, Nat.ne_of_gt hb]

theorem mergeLoopF_preserves (mergeFn : Heap → Nat → Nat → Option (Heap × Nat))
    (hP : MergePreserves mergeFn) :
    ∀ (entries : List (String × HValue)) (h : Heap) (res : Nat) (h' : Heap),
      mergeLoopF mergeFn h res entries = some h' →
      h.next ≤ h'.next ∧ ∀ a, a < h.next → a ≠ res → h'.get a = h.get a := by
  intro entries
  induction entries with
  | nil =>
    intro h res h' hm
    simp only [mergeLoopF, Option.some.injEq] at hm
    subst hm
    exact ⟨Nat.le_refl _, fun a _ _ => rfl⟩
  | cons e rest ih =>
    obtain ⟨key, value⟩ := e
    intro h res h' hm
    simp only [mergeLoopF] at hm
    split at hm
    · exact absurd hm (by simp)
    · rename_i resd heqres
      split at hm
      · cases hmf : mergeFn h (getRefD (alookup resd key)) (getRefV value) with
        | none => simp only [hmf] at hm; exact absurd hm (by simp)
        | some p =>
          obtain ⟨h1, r⟩ := p
          simp only [hmf] at hm
          obtain ⟨hnext1, hpres1⟩ :=
            hP h (getRefD (alookup resd key)) (getRefV value) h1 r hmf
          cases hres1 : h1.get res with
          | none => simp only [hres1] at hm; exact absurd hm (by simp)
          | some resd' =>
            simp only [hres1] at hm
            obtain ⟨hnext2, hpres2⟩ := ih _ res h' hm
            simp only [Heap.next_set] at hnext2
            refine ⟨by omega, ?_⟩
            intro a ha hares
            rw [hpres2 a (by rw [Heap.next_set]; omega) hares,
              Heap.get_set_ne _ _ _ _ hares, hpres1 a ha]
      · obtain ⟨hnext2, hpres2⟩ := ih _ res h' hm
        simp only [Heap.next_set] at hnext2
        refine ⟨hnext2, ?_⟩
        intro a ha hares
        rw [hpres2 a (by rw [Heap.next_set]; omega) hares,
          Heap.get_set_ne _ _ _ _ hares]

theorem mergeH_preserves (fuel : Nat) :
    ∀ (h : Heap) (r1 r2 : Nat) (h' : Heap) (r : Nat),
      mergeH fuel h r1 r2 = some (h', r) →
      h.next ≤ h'.next ∧ h.next ≤ r ∧ r < h'.next ∧
      ∀ a, a < h.next → h'.get a = h.get a := by
  induction fuel with
  | zero =>
    intro h r1 r2 h' r hm
    exact absurd hm (by simp [mergeH])
  | succ fuel ih =>
    intro h r1 r2 h' r hm
    simp only [mergeH] at hm
    cases hg1 : h.get r1 with
    | none => simp only [hg1] at hm; exact absurd hm (by simp)
    | some d1 =>
      simp only [hg1] at hm
      cases hg2 : h.get r2 with
      | none => simp only [hg2] at hm; exact absurd hm (by simp)
      | some d2 =>
        simp only [hg2] at hm
        cases hloop : mergeLoopF (mergeH fuel) (h.alloc d1).1 (h.alloc d1).2 d2 with
        | none => simp only [hloop] at hm; exact absurd hm (by simp)
        | some h2 =>
          simp only [hloop, Option.some.injEq, Prod.mk.injEq] at hm
          obtain ⟨hh, hr⟩ := hm
          subst hh
          subst hr
          have hPf : MergePreserves (mergeH fuel) := by
            intro hh rr1 rr2 hh' rr hmm
            exact ⟨(ih hh rr1 rr2 hh' rr hmm).1, (ih hh rr1 rr2 hh' rr hmm).2.2.2⟩
          obtain ⟨hnext, hpres⟩ :=
            mergeLoopF_preserves (mergeH fuel) hPf d2 (h.alloc d1).1
              (h.alloc d1).2 _ hloop
          have ha1 : (h.alloc d1).1.next = h.next + 1 := rfl
          have ha2 : (h.alloc d1).2 = h.next := rfl
          rw [ha1] at hnext
          rw [ha1, ha2] at hpres
          rw [ha2]
          refine ⟨by omega, Nat.le_refl _, by omega, ?_⟩
          intro a ha
          rw [hpres a (by omega) (by omega), Heap.get_alloc_lt h d1 a ha]

/-! ## Supporting lemmas -/

theorem extractAux_error (config : ConfigTree) (pre : List String) (f : String)
    (post : List String) (e : Err) (acc : List (String × String))
    (hpre : ∀ g ∈ pre, ∃ s, get_env_value_by_export_field config g = Except.ok s)
    (hf : get_env_value_by_export_field config f = .error e) :
    extractAux config (pre ++ f :: post) acc = .error e := by
  induction pre generalizing acc with
  | nil => simp [extractAux, hf]
  | cons g gs ih =>
    obtain ⟨s, hs⟩ := hpre g (by simp)
    simp only [List.cons_append, extractAux, hs]
    exact ih _ (fun g' hg' => hpre g' (List.mem_cons_of_mem _ hg'))

/-! ## Claim theorems -/

/-- C1: For every key `k` present in both trees `a` and `b`: if both values
are ConfigTrees, `merge(a,b)[k]` is the recursive merge of the two
subtrees; otherwise `merge(a,b)[k] = b[k]` (overlay wins for
scalar-over-scalar, scalar-over-tree, and tree-over-scalar); every key
present in only one of `a` or `b` appears unchanged in the result.
(The overlay's keys are unique, per the ConfigTree data-model
invariant.) -/
theorem claim_C1_merge_semantics (a b : ConfigTree) (k : String)
    (hb : (keysT b).Nodup) :
    (∀ ta tb, lookupT a k = some (Value.vTree ta) →
      lookupT b k = some (Value.vTree tb) →
      lookupT (merge_dicts a b) k = some (Value.vTree (merge_dicts ta tb))) ∧
    (∀ va vb, lookupT a k = some va → lookupT b k = some vb →
      (∀ ta tb, ¬(va = Value.vTree ta ∧ vb = Value.vTree tb)) →
      lookupT (merge_dicts a b) k = some vb) ∧
    (lookupT b k = none → lookupT (merge_dicts a b) k = lookupT a k) ∧
    (lookupT a k = none → ∀ vb, lookupT b k = some vb →
      lookupT (merge_dicts a b) k = some vb) := by
  refine ⟨?_, ?_, ?_, ?_⟩
  · exact fun ta tb h1 h2 => lookupT_merge_both_trees a b k ta tb hb h1 h2
  · exact fun va vb h1 h2 hnt => lookupT_merge_overlay_wins a b k va vb hb h1 h2 hnt
  · exact fun h => lookupT_merge_of_not_mem_overlay a b k h
  · exact fun h1 vb h2 => lookupT_merge_only_overlay a b k vb hb h1 h2

theorem claim_C1_merge_semantics_witness :
    lookupT (merge_dicts c1base c1overlay) "x" =
      some (Value.vTree (merge_dicts [("p", Value.vInt 1)] [("q", Value.vInt 2)])) :=
  (claim_C1_merge_semantics c1base c1overlay "x" (by decide)).1 _ _ rfl rfl

/-- C2: over the explicit heap model of Python objects, a successful
`merge_dicts(a, b)` leaves every pre-existing heap cell — in particular
every dictionary of both inputs — bit-for-bit unchanged, and the returned
tree is freshly constructed: its address did not exist before the call
(`h.next ≤ r`) and was allocated by it (`r < h'.next`). -/
theorem claim_C2_merge_no_mutation (fuel : Nat) (h : Heap) (r1 r2 : Nat)
    (h' : Heap) (r : Nat) (hm : mergeH fuel h r1 r2 = some (h', r)) :
    (∀ a, a < h.next → h'.get a = h.get a) ∧
    h.next ≤ r ∧ h.next ≤ h'.next ∧ r < h'.next := by
  obtain ⟨h1, h2, h3, h4⟩ := mergeH_preserves fuel h r1 r2 h' r hm
  exact ⟨h4, h2, h1, h3⟩

theorem claim_C2_merge_no_mutation_witness :
    (∀ a, a < c2heap.next → c2result.1.get a = c2heap.get a) ∧
    c2heap.next ≤ c2result.2 ∧ c2heap.next ≤ c2result.1.next ∧
    c2result.2 < c2result.1.next :=
  claim_C2_merge_no_mutation 3 c2heap 0 1 c2result.1 c2result.2 rfl

/-- C3: for every member `e` of the closed environment set,
`validate_env` maps its string to `e`; every other candidate — absent
(`none`), empty, or an unknown string — fails with InvalidEnvironment. -/
theorem claim_C3_validate_env :
    (∀ e : ValidEnvs, validate_env (some e.value) = .ok e) ∧
    (∀ c : Option String, (∀ e : ValidEnvs, c ≠ some e.value) →
      validate_env c = .error .invalidEnvironment) := by
  constructor
  · intro e
    cases e <;> rfl
  · intro c hc
    match c with
    | none => rfl
    | some s =>
      have h1 : ¬s = "local" := fun h => hc .LOCAL (by rw [h]; rfl)
      have h2 : ¬s = "dev" := fun h => hc .DEV (by rw [h]; rfl)
      have h3 : ¬s = "staging" := fun h => hc .STAGING (by rw [h]; rfl)
      have h4 : ¬s = "prod" := fun h => hc .PROD (by rw [h]; rfl)
      simp [validate_env, h1, h2, h3, h4]

theorem claim_C3_validate_env_witness :
    validate_env (some "dev") = .ok ValidEnvs.DEV ∧
    validate_env (some "") = .error .invalidEnvironment ∧
    validate_env (some "Incorrect") = .error .invalidEnvironment ∧
    validate_env none = .error .invalidEnvironment :=
  ⟨claim_C3_validate_env.1 ValidEnvs.DEV,
   claim_C3_validate_env.2 (some "") (by intro e; cases e <;> decide),
   claim_C3_validate_env.2 (some "Incorrect") (by intro e; cases e <;> decide),
   claim_C3_validate_env.2 none (by intro e; exact Option.noConfusion)⟩

/-- C4: if any path in a non-empty manifest fails to resolve (FieldNotFound
for a missing segment, NonScalarField for a container leaf), extraction
raises at the first failing path — the error of the first path whose
resolution fails is the result — and produces no partial output mapping. -/
theorem claim_C4_extract_first_failure (config : ConfigTree)
    (pre : List String) (f : String) (post : List String) (e : Err)
    (hpre : ∀ g ∈ pre, ∃ s, get_env_value_by_export_field config g = Except.ok s)
    (hf : get_env_value_by_export_field config f = .error e) :
    extract_export_fields_from_config config (pre ++ f :: post) = .error e :=
  extractAux_error config pre f post e [] hpre hf

theorem claim_C4_extract_first_failure_witness :
    extract_export_fields_from_config c4config
      (["db.USER"] ++ "db.HOST" :: ["db.PORT"]) = .error .fieldNotFound :=
  claim_C4_extract_first_failure c4config ["db.USER"] "db.HOST" ["db.PORT"]
    .fieldNotFound
    (by
      intro g hg
      rw [List.mem_singleton] at hg
      subst hg
      exact ⟨"admin", rfl⟩)
    rfl

/-- C5: resolving an environment whose directory holds a base config
document but no secrets document succeeds with exactly the base document's
tree (the secrets layer is the empty tree; soft-missing applies to the
secrets document only — the base document and directory lookups appear as
hypotheses because their failures are fatal). -/
theorem claim_C5_soft_missing_secrets (env : ValidEnvs) (dir_paths : DirPaths)
    (fs : FileSystem) (d : String) (files : DirFiles) (base : ConfigTree)
    (hd : alookup dir_paths env = some d)
    (hfs : alookup fs d = some files)
    (hbase : alookup files DirContents.CONFIG_NAME = some (FileContent.parsed base))
    (hsec : alookup files DirContents.SECRETS_NAME = none) :
    load_full_config env dir_paths fs = .ok base := by
  unfold load_full_config read_config
  simp only [hd, hfs, hbase, hsec]
  simp [merge_dicts_nil]

theorem claim_C5_soft_missing_secrets_witness :
    load_full_config ValidEnvs.DEV [(ValidEnvs.DEV, "/tmp/cfg")]
      [("/tmp/cfg", [(DirContents.CONFIG_NAME, FileContent.parsed c5base)])] =
      .ok c5base :=
  claim_C5_soft_missing_secrets ValidEnvs.DEV _ _ "/tmp/cfg"
    [(DirContents.CONFIG_NAME, FileContent.parsed c5base)] c5base
    rfl rfl rfl rfl

/-- C8: `read_config` fails with DirectoryNotFound whenever the
environment key is absent from the directory map or the resolved
directory does not exist; given an existing directory holding a valid
TOML document of the requested name, it returns the parsed nested
mapping. -/
theorem claim_C8_read_config_errors (env : ValidEnvs) (name : String)
    (dir_paths : DirPaths) (fs : FileSystem) :
    (alookup dir_paths env = none →
      read_config env name dir_paths fs = .error .directoryNotFound) ∧
    (∀ d, alookup dir_paths env = some d → alookup fs d = none →
      read_config env name dir_paths fs = .error .directoryNotFound) ∧
    (∀ d files t, alookup dir_paths env = some d → alookup fs d = some files →
      alookup files name = some (FileContent.parsed t) →
      read_config env name dir_paths fs = .ok t) := by
  refine ⟨?_, ?_, ?_⟩
  · intro h
    unfold read_config
    rw [h]
  · intro d hd hfs
    unfold read_config
    simp only [hd, hfs]
  · intro d files t hd hfs hfile
    unfold read_config
    simp only [hd, hfs, hfile]

theorem claim_C8_read_config_errors_witness :
    read_config ValidEnvs.PROD DirContents.CONFIG_NAME [] [] =
      .error .directoryNotFound ∧
    read_config ValidEnvs.DEV DirContents.CONFIG_NAME
      [(ValidEnvs.DEV, "wrong_path")] [] = .error .directoryNotFound ∧
    read_config ValidEnvs.DEV DirContents.CONFIG_NAME
      [(ValidEnvs.DEV, "/tmp/cfg")]
      [("/tmp/cfg", [(DirContents.CONFIG_NAME, FileContent.parsed c5base)])] =
      .ok c5base :=
  ⟨(claim_C8_read_config_errors ValidEnvs.PROD DirContents.CONFIG_NAME [] []).1 rfl,
   (claim_C8_read_config_errors ValidEnvs.DEV DirContents.CONFIG_NAME
      [(ValidEnvs.DEV, "wrong_path")] []).2.1 "wrong_path" rfl rfl,
   (claim_C8_read_config_errors ValidEnvs.DEV DirContents.CONFIG_NAME
      [(ValidEnvs.DEV, "/tmp/cfg")]
      [("/tmp/cfg", [(DirContents.CONFIG_NAME, FileContent.parsed c5base)])]).2.2
      "/tmp/cfg" _ c5base rfl rfl rfl⟩

theorem extractAux_lookup_frame (config : ConfigTree) :
    ∀ (fields : List String) (acc m : List (String × String)) (key : String),
      extractAux config fields acc = .ok m →
      key ∉ fields.map exportNameOf →
      alookup m key = alookup acc key := by
  intro fields
  induction fields with
  | nil =>
    intro acc m key hm _
    simp only [extractAux, Except.ok.injEq] at hm
    rw [hm]
  | cons f rest ih =>
    intro acc m key hm hkey
    rw [List.map_cons, List.mem_cons] at hkey
    push_neg at hkey
    simp only [extractAux] at hm
    cases hres : get_env_value_by_export_field config f with
    | error e => rw [hres] at hm; exact absurd hm (by simp)
    | ok s =>
      rw [hres] at hm
      rw [ih _ m key hm hkey.2, alookup_ainsert_ne _ _ _ _ hkey.1]

theorem extractAux_lookup (config : ConfigTree) (field s : String) :
    ∀ (fields : List String) (acc m : List (String × String)),
      (fields.map exportNameOf).Nodup →
      extractAux config fields acc = .ok m →
      field ∈ fields →
      get_env_value_by_export_field config field = .ok s →
      alookup m (exportNameOf field) = some s := by
  intro fields
  induction fields with
  | nil => intro acc m _ _ hmem _; simp at hmem
  | cons f rest ih =>
    intro acc m hnd hm hmem hs
    rw [List.map_cons, List.nodup_cons] at hnd
    simp only [extractAux] at hm
    cases hres : get_env_value_by_export_field config f with
    | error e => rw [hres] at hm; exact absurd hm (by simp)
    | ok s' =>
      rw [hres] at hm
      rcases List.mem_cons.mp hmem with rfl | hmem'
      · rw [hres] at hs
        injection hs with hs
        subst hs
        rw [extractAux_lookup_frame config rest _ m _ hm hnd.1,
          alookup_ainsert_self]
      · exact ih _ m hnd.2 hm hmem' hs

/-- C6: for every export field path that resolves to a scalar, extraction
produces an entry whose name is the dotted path with `.` replaced by `_`
and upper-cased, and whose value is the scalar's canonical string form
(stated for manifests whose derived names are distinct, so that the entry
is not overwritten by a later duplicate); in particular the tree
`{"database": {"USER": "app", "PORT": 5432}}` with path `"database.PORT"`
yields name `DATABASE_PORT` and value `"5432"`. -/
theorem claim_C6_export_entry :
    (∀ (config : ConfigTree) (fields : List String)
        (m : List (String × String)) (field s : String),
      (fields.map exportNameOf).Nodup →
      extract_export_fields_from_config config fields = .ok m →
      field ∈ fields →
      get_env_value_by_export_field config field = .ok s →
      alookup m (exportNameOf field) = some s) ∧
    (exportNameOf "database.PORT" = "DATABASE_PORT" ∧
      extract_export_fields_from_config
        [("database", Value.vTree [("USER", Value.vStr "app"),
          ("PORT", Value.vInt 5432)])]
        ["database.PORT"] = .ok [("DATABASE_PORT", "5432")]) :=
  ⟨fun config fields m field s hnd hm hmem hs =>
      extractAux_lookup config field s fields [] m hnd hm hmem hs,
   by decide, rfl⟩

/-- Counterexample to C6 as literally stated: the path `a.b` resolves to
the scalar `1`, yet the extraction over `["a.b", "a_b"]` leaves the entry
named `A_B` holding `"2"` — the later path `a_b` derives the same export
name and silently overwrites (the overwrite semantics the spec itself
documents for duplicates). -/
theorem claim_C6_export_entry_counterexample :
    get_env_value_by_export_field c6collide "a.b" = .ok "1" ∧
    extract_export_fields_from_config c6collide ["a.b", "a_b"] =
      .ok [("A_B", "2")] ∧
    alookup [("A_B", "2")] (exportNameOf "a.b") ≠ some "1" :=
  ⟨rfl, rfl, by decide⟩

theorem claim_C6_export_entry_witness :
    alookup [("DB_USER", "admin"), ("DB_PORT", "5432")]
      (exportNameOf "db.PORT") = some "5432" :=
  claim_C6_export_entry.1 c4config ["db.USER", "db.PORT"]
    [("DB_USER", "admin"), ("DB_PORT", "5432")] "db.PORT" "5432"
    (by decide) rfl (by decide) rfl

theorem allStrings_map_vStr (fs : List String) :
    allStrings (fs.map Value.vStr) = some fs := by
  induction fs with
  | nil => rfl
  | cons s rest ih => simp [allStrings, ih]

theorem allStrings_some_imp (l : List Value) :
    ∀ fs, allStrings l = some fs → l = fs.map Value.vStr := by
  induction l with
  | nil =>
    intro fs h
    simp only [allStrings, Option.some.injEq] at h
    rw [← h]
    rfl
  | cons v rest ih =>
    intro fs h
    cases v with
    | vStr s =>
      simp only [allStrings] at h
      rcases ho : allStrings rest with _ | a
      · rw [ho] at h; simp at h
      · rw [ho] at h
        simp only [Option.map_some', Option.some.injEq] at h
        subst h
        simp [List.map_cons, ih a ho]
    | vInt n => simp [allStrings] at h
    | vBool b => simp [allStrings] at h
    | vTree t => simp [allStrings] at h
    | vList l2 => simp [allStrings] at h

theorem allStrings_eq_some (l : List Value) (fs : List String) :
    allStrings l = some fs ↔ l = fs.map Value.vStr :=
  ⟨allStrings_some_imp l fs, fun h => by rw [h]; exact allStrings_map_vStr fs⟩

theorem parse_export_fields_error (doc : ConfigTree) (e : Err)
    (h : parse_export_fields doc = .error e) : e = .malformedManifest := by
  unfold parse_export_fields at h
  repeat split at h
  all_goals simp_all

theorem parse_export_fields_ok_iff (doc : ConfigTree) (flds : List String) :
    parse_export_fields doc = .ok flds ↔
      ∃ sec, lookupT doc "export" = some (Value.vTree sec) ∧
        lookupT sec "fields" = some (Value.vList (flds.map Value.vStr)) ∧
        flds ≠ [] := by
  unfold parse_export_fields
  cases hexp : lookupT doc "export" with
  | none => simp
  | some v =>
    cases v with
    | vStr s => simp
    | vInt n => simp
    | vBool b => simp
    | vList l => simp
    | vTree sec =>
      simp only [Option.some.injEq, Value.vTree.injEq, exists_eq_left']
      cases hf : lookupT sec "fields" with
      | none => simp
      | some w =>
        cases w with
        | vStr s => simp
        | vInt n => simp
        | vBool b => simp
        | vTree t => simp
        | vList l =>
          simp only [Option.some.injEq, Value.vList.injEq]
          cases hs : allStrings l with
          | none =>
            constructor
            · intro h; exact absurd h (by simp)
            · rintro ⟨hl, -⟩
              rw [(allStrings_eq_some l flds).mpr hl] at hs
              exact Option.noConfusion hs
          | some fs0 =>
            have hl : l = fs0.map Value.vStr := (allStrings_eq_some l fs0).mp hs
            cases fs0 with
            | nil =>
              constructor
              · intro h; exact absurd h (by simp)
              · rintro ⟨hl', hne⟩
                rw [hl] at hl'
                exact absurd (List.map_eq_nil_iff.mp hl'.symm) hne
            | cons f0 fs0' =>
              constructor
              · intro h
                simp only [Except.ok.injEq] at h
                subst h
                exact ⟨hl, by simp⟩
              · rintro ⟨hl', hne⟩
                have hinj : Function.Injective Value.vStr :=
                  fun a b hab => Value.vStr.inj hab
                have heq : f0 :: fs0' = flds :=
                  List.map_injective_iff.mpr hinj (hl.symm.trans hl')
                rw [← heq]

/-- C7: `load_export_fields` (with the export manifest document read
successfully) fails with MalformedManifest in exactly these cases: the
required top-level key is missing, its value is not a sequence, any
element of the sequence is not a string, or the sequence is empty;
otherwise it returns the sequence of dotted paths in manifest order. -/
theorem claim_C7_load_manifest (env : ValidEnvs) (dir_paths : DirPaths)
    (fs : FileSystem) (doc : ConfigTree)
    (hread : read_config env DirContents.EXPORT_NAME dir_paths fs = .ok doc) :
    (∀ flds, load_export_fields env dir_paths fs = .ok flds ↔
      ∃ sec, lookupT doc "export" = some (Value.vTree sec) ∧
        lookupT sec "fields" = some (Value.vList (flds.map Value.vStr)) ∧
        flds ≠ []) ∧
    (∀ e, load_export_fields env dir_paths fs = .error e →
      e = .malformedManifest) := by
  have hload : load_export_fields env dir_paths fs = parse_export_fields doc := by
    unfold load_export_fields
    rw [hread]
  rw [hload]
  exact ⟨fun flds => parse_export_fields_ok_iff doc flds,
    fun e he => parse_export_fields_error doc e he⟩

theorem claim_C7_load_manifest_witness :
    load_export_fields ValidEnvs.DEV [(ValidEnvs.DEV, "/tmp/cfg")]
      [("/tmp/cfg", [(DirContents.EXPORT_NAME, FileContent.parsed c7doc)])] =
      .ok ["postgres.USER", "postgres.PORT"] :=
  ((claim_C7_load_manifest ValidEnvs.DEV [(ValidEnvs.DEV, "/tmp/cfg")]
      [("/tmp/cfg", [(DirContents.EXPORT_NAME, FileContent.parsed c7doc)])]
      c7doc rfl).1
    ["postgres.USER", "postgres.PORT"]).mpr
    ⟨[("fields", Value.vList [Value.vStr "postgres.USER", Value.vStr "postgres.PORT"])],
      rfl, rfl, by simp⟩

theorem string_join_cons (a : String) (l : List String) :
    String.join (a :: l) = a ++ String.join l := by
  apply String.ext
  simp [String.join_eq, String.data_append]

theorem dotenvContent_eq (env : ValidEnvs)
    (exported_fields : List (String × String)) (generated_at : String) :
    dotenvContent env exported_fields generated_at =
      "# This .env file was automatically generated by toml_config_manager.\n" ++
      "# Do not edit directly.\n" ++ "\n" ++
      "# Environment: " ++ env.value ++ "\n" ++
      "# Generated: " ++ generated_at ++ "\n" ++ "\n" ++
      String.join (exported_fields.map fun p => p.1 ++ "=" ++ p.2 ++ "\n") := by
  apply String.ext
  simp [dotenvContent, dotenvLines, String.join_eq, String.data_append,
    List.map_map, Function.comp]
  have hfun :
      (String.data ∘ (fun x => x ++ "\n") ∘
        fun p : String × String => p.1 ++ "=" ++ p.2) =
      (String.data ∘ fun p : String × String => p.1 ++ "=" ++ p.2 ++ "\n") := by
    funext p
    simp [Function.comp, String.data_append]
  rw [hfun]

theorem exists_newline_suffix (x : String) (l : List String) :
    ∃ s : String, String.join ((x :: l).map (· ++ "\n")) = s ++ "\n" := by
  induction l generalizing x with
  | nil =>
    refine ⟨x, ?_⟩
    rw [List.map_cons, List.map_nil, string_join_cons]
    show (x ++ "\n") ++ String.join [] = x ++ "\n"
    rw [show String.join [] = "" from rfl, String.append_empty]
  | cons y rest ih =>
    obtain ⟨s, hs⟩ := ih y
    refine ⟨x ++ "\n" ++ s, ?_⟩
    rw [List.map_cons, string_join_cons, hs]
    simp [String.append_assoc]

theorem dotenvContent_newline_terminated (env : ValidEnvs)
    (exported_fields : List (String × String)) (generated_at : String) :
    ∃ s, dotenvContent env exported_fields generated_at = s ++ "\n" := by
  unfold dotenvContent dotenvLines
  simp only [List.cons_append, List.nil_append]
  exact exists_newline_suffix _ _

/-- C9: `write_dotenv_file` resolves the target directory via
`dir_paths[env]` (fatal DirectoryNotFound when absent) and produces the
file named `.env.<environment>` in that directory, whose newline-terminated
content is: the fixed 2-line disclaimer header, a blank line, an
`# Environment: <environment>` line, a `# Generated: <timestamp>` line, a
blank line, then one `NAME=value` line per entry of the mapping in the
mapping's own order, values written verbatim and unescaped. -/
theorem claim_C9_dotenv_write (env : ValidEnvs)
    (exported_fields : List (String × String)) (dir_paths : DirPaths)
    (generated_at : String) :
    (∀ d, alookup dir_paths env = some d →
      write_dotenv_file env exported_fields dir_paths generated_at =
        .ok (d ++ "/.env." ++ env.value,
          "# This .env file was automatically generated by toml_config_manager.\n" ++
          "# Do not edit directly.\n" ++ "\n" ++
          "# Environment: " ++ env.value ++ "\n" ++
          "# Generated: " ++ generated_at ++ "\n" ++ "\n" ++
          String.join (exported_fields.map fun p => p.1 ++ "=" ++ p.2 ++ "\n")) ∧
      (∃ s, dotenvContent env exported_fields generated_at = s ++ "\n")) ∧
    (alookup dir_paths env = none →
      write_dotenv_file env exported_fields dir_paths generated_at =
        .error .directoryNotFound) := by
  constructor
  · intro d hd
    constructor
    · unfold write_dotenv_file
      simp only [hd]
      rw [dotenvContent_eq]
    · exact dotenvContent_newline_terminated env exported_fields generated_at
  · intro h
    unfold write_dotenv_file
    simp only [h]

theorem claim_C9_dotenv_write_witness :
    write_dotenv_file ValidEnvs.DEV
        [("POSTGRES_USER", "admin"), ("POSTGRES_PORT", "5432")]
        [(ValidEnvs.DEV, "/tmp/out")] "2025-01-01T12:00:00+00:00" =
      .ok ("/tmp/out" ++ "/.env." ++ ValidEnvs.DEV.value,
        "# This .env file was automatically generated by toml_config_manager.\n" ++
        "# Do not edit directly.\n" ++ "\n" ++
        "# Environment: " ++ ValidEnvs.DEV.value ++ "\n" ++
        "# Generated: " ++ "2025-01-01T12:00:00+00:00" ++ "\n" ++ "\n" ++
        String.join
          ([("POSTGRES_USER", "admin"), ("POSTGRES_PORT", "5432")].map
            fun p => p.1 ++ "=" ++ p.2 ++ "\n")) ∧
    (∃ s, dotenvContent ValidEnvs.DEV
        [("POSTGRES_USER", "admin"), ("POSTGRES_PORT", "5432")]
        "2025-01-01T12:00:00+00:00" = s ++ "\n") :=
  (claim_C9_dotenv_write ValidEnvs.DEV
    [("POSTGRES_USER", "admin"), ("POSTGRES_PORT", "5432")]
    [(ValidEnvs.DEV, "/tmp/out")] "2025-01-01T12:00:00+00:00").1 "/tmp/out" rfl

/-- C10: in the downstream settings layer, `PostgresSettings` reads the
`POSTGRES_HOST` process-environment variable: whenever it is set to a
non-empty string, its value overrides the configured host; otherwise
(unset, or set to the empty string) the configured host is used
unchanged. -/
theorem claim_C10_postgres_host_override :
    (∀ s v : String, s ≠ "" → override_host_from_env (some s) v = s) ∧
    (∀ v : String, override_host_from_env none v = v) ∧
    (∀ v : String, override_host_from_env (some "") v = v) := by
  refine ⟨?_, fun _ => rfl, fun _ => rfl⟩
  intro s v hs
  simp [override_host_from_env, hs]

theorem claim_C10_postgres_host_override_witness :
    override_host_from_env (some "db.internal") "localhost" = "db.internal" :=
  claim_C10_postgres_host_override.1 "db.internal" "localhost" (by decide)

end TomlConfigManager

